import Mathlib

/-!
Shallow embedding of parts of the YASK stencil-kernel runtime
(command-line parsing, thread-count computation, bounding boxes,
tolerance comparison, aligned/NUMA allocation, stats, the run-solution
overloads, the vector-align primitive, and grid lookup), together with
theorems settling the specification claims about them.

Sources: the kernel context/utility translation unit (BoundingBox,
Stats, StencilContext, alignedAlloc, numaAlloc, CommandLineParser) and
realv.hpp (realv_align, within_tolerance).
-/

/-! ## C integer parsing: strtoll with base 0, as used by OptionBase -/

/-- LLONG_MIN. -/
def llMin : Int := -(2 ^ 63)

/-- LLONG_MAX. -/
def llMax : Int := 2 ^ 63 - 1

/-- strtoll clamps an out-of-range result to the long-long range. -/
def clampLL (n : Int) : Int := max llMin (min llMax n)

/-- Whitespace characters skipped by strtoll and used to split tokens
(C isspace, default locale). -/
def isCSpace (c : Char) : Bool :=
  c == ' ' || c == '\t' || c == '\n' || c == '\r' || c == '\x0b' || c == '\x0c'

/-- Numeric value of a hexadecimal digit character, if it is one. -/
def hexVal? (c : Char) : Option Nat :=
  if '0' ≤ c ∧ c ≤ '9' then some (c.toNat - '0'.toNat)
  else if 'a' ≤ c ∧ c ≤ 'f' then some (c.toNat - 'a'.toNat + 10)
  else if 'A' ≤ c ∧ c ≤ 'F' then some (c.toNat - 'A'.toNat + 10)
  else none

/-- Value of a digit character in the given base, if valid there. -/
def digitInBase? (base : Nat) (c : Char) : Option Nat :=
  match hexVal? c with
  | some v => if v < base then some v else none
  | none => none

/-- Consume a maximal run of digits in the given base.  Returns the
accumulated value, the number of digits consumed, and the rest. -/
def takeDigits (base : Nat) : List Char → Nat → Nat × Nat × List Char
  | [], acc => (acc, 0, [])
  | c :: cs, acc =>
    match digitInBase? base c with
    | some v =>
      let r := takeDigits base cs (acc * base + v)
      (r.1, r.2.1 + 1, r.2.2)
    | none => (acc, 0, c :: cs)

/-- `strtoll(nptr, &endptr, 0)`: skip whitespace, read an optional sign,
detect the base from a `0x`/`0` prefix, convert, and clamp to the
long-long range.  Returns the value and the unconsumed suffix
(`endptr`); when no conversion is performed the whole input is the
suffix, as in C. -/
def strtoll0 (s : List Char) : Int × List Char :=
  let s1 := s.dropWhile isCSpace
  let sign : Int := match s1 with
    | '-' :: _ => -1
    | _ => 1
  let s2 : List Char := match s1 with
    | '-' :: cs => cs
    | '+' :: cs => cs
    | _ => s1
  match s2 with
  | '0' :: x :: cs =>
    if x = 'x' ∨ x = 'X' then
      match cs with
      | c :: _ =>
        if (hexVal? c).isSome then
          let r := takeDigits 16 cs 0
          (clampLL (sign * (r.1 : Int)), r.2.2)
        else (clampLL 0, x :: cs)
      | [] => (clampLL 0, x :: cs)
    else
      let r := takeDigits 8 (x :: cs) 0
      (clampLL (sign * (r.1 : Int)), r.2.2)
  | ['0'] => (clampLL 0, [])
  | _ =>
    let r := takeDigits 10 s2 0
    if r.2.1 = 0 then (0, s) else (clampLL (sign * (r.1 : Int)), r.2.2)

/-! ## Command-line parser (CommandLineParser) -/

/-- `OptionBase::_idx_val`, acting on the argument tokens that follow the
option token: error when the value token is missing or empty; otherwise
convert with strtoll and error when the result hits the long-long range
bounds or the token has unconsumed characters. -/
def idx_val (rest : List String) : Except String Int :=
  match rest with
  | [] => Except.error "Error: no argument for option"
  | v :: _ =>
    if v.length = 0 then Except.error "Error: no argument for option"
    else
      let r := strtoll0 v.data
      if r.1 = llMin ∨ r.1 = llMax ∨ r.2 ≠ [] then
        Except.error "Error: argument for option is not an integer"
      else Except.ok r.1

/-- The variables written by the parser options: the idx-valued settings
(block sizes per dim, thread counts, ...) and the boolean toggles.
Options hold indices into these lists, modelling the C++ pointers. -/
structure OptStore where
  ints : List Int
  bools : List Bool
  deriving Repr, DecidableEq

/-- Write through an idx pointer. -/
def setIntCell (st : OptStore) (i : Nat) (v : Int) : OptStore :=
  { st with ints := st.ints.set i v }

/-- Write through a bool pointer. -/
def setBoolCell (st : OptStore) (i : Nat) (v : Bool) : OptStore :=
  { st with bools := st.bools.set i v }

/-- Conversion `(int)` applied by IntOption to the 64-bit parsed value:
two's-complement wrap to 32 bits. -/
def toCInt (v : Int) : Int := (v + 2 ^ 31).emod (2 ^ 32) - 2 ^ 31

/-- The registered option kinds: BoolOption, IntOption, IdxOption and
MultiIdxOption, each holding its name and the target cell(s) its value
is written to. -/
inductive CmdOption where
  | boolOpt (nm : String) (target : Nat)
  | intOpt (nm : String) (target : Nat)
  | idxOpt (nm : String) (target : Nat)
  | multiIdxOpt (nm : String) (targets : List Nat)
  deriving Repr, DecidableEq

/-- Name of an option. -/
def CmdOption.nameOf : CmdOption → String
  | .boolOpt n _ => n
  | .intOpt n _ => n
  | .idxOpt n _ => n
  | .multiIdxOpt n _ => n

/-- Whether the option takes an integer value token. -/
def CmdOption.isIntValued : CmdOption → Bool
  | .boolOpt _ _ => false
  | _ => true

/-- Whether a token names this option (`OptionBase::_check_arg`
comparisons: `-name`, and additionally `-no-name` for BoolOption). -/
def CmdOption.matchesTok (o : CmdOption) (tok : String) : Bool :=
  match o with
  | .boolOpt n _ => decide (tok = "-" ++ n) || decide (tok = "-no-" ++ n)
  | .intOpt n _ => decide (tok = "-" ++ n)
  | .idxOpt n _ => decide (tok = "-" ++ n)
  | .multiIdxOpt n _ => decide (tok = "-" ++ n)

/-- `check_arg` of each option class, at the current token `tok` with the
following tokens `rest`.  Returns `none` when the token does not name
the option; otherwise the updated store and whether a value token was
also consumed.  Value-conversion failures propagate as errors
(exceptions in the C++). -/
def check_arg (o : CmdOption) (tok : String) (rest : List String) (st : OptStore) :
    Except String (Option (Bool × OptStore)) :=
  match o with
  | .boolOpt n tgt =>
    if tok = "-" ++ n then Except.ok (some (false, setBoolCell st tgt true))
    else if tok = "-no-" ++ n then Except.ok (some (false, setBoolCell st tgt false))
    else Except.ok none
  | .intOpt n tgt =>
    if tok = "-" ++ n then
      match idx_val rest with
      | Except.error e => Except.error e
      | Except.ok v => Except.ok (some (true, setIntCell st tgt (toCInt v)))
    else Except.ok none
  | .idxOpt n tgt =>
    if tok = "-" ++ n then
      match idx_val rest with
      | Except.error e => Except.error e
      | Except.ok v => Except.ok (some (true, setIntCell st tgt v))
    else Except.ok none
  | .multiIdxOpt n tgts =>
    if tok = "-" ++ n then
      match idx_val rest with
      | Except.error e => Except.error e
      | Except.ok v => Except.ok (some (true, tgts.foldl (fun s t => setIntCell s t v) st))
    else Except.ok none

/-- The inner loop of `parse_args`: try each registered option in turn at
the current token. -/
def findMatch (opts : List CmdOption) (tok : String) (rest : List String) (st : OptStore) :
    Except String (Option (Bool × OptStore)) :=
  match opts with
  | [] => Except.ok none
  | o :: os =>
    match check_arg o tok rest st with
    | Except.error e => Except.error e
    | Except.ok (some r) => Except.ok (some r)
    | Except.ok none => findMatch os tok rest st

/-- `CommandLineParser::parse_args` main loop: walk the tokens; a token
matched by some option is consumed (together with its value token when
the option takes one), an unmatched token is appended to `non_args`.
When the value token was consumed the loop continues past it; if it was
the last token the loop ends, returning the accumulated unused tokens,
just as the C++ loop does when `argi` reaches `args.size()`. -/
def parse_args_go (opts : List CmdOption) : List String → OptStore → List String →
    Except String (List String × OptStore)
  | [], st, non_args => Except.ok (non_args, st)
  | tok :: rest, st, non_args =>
    match findMatch opts tok rest st with
    | Except.error e => Except.error e
    | Except.ok (some r) =>
      if r.1 then
        match rest with
        | [] => Except.ok (non_args, r.2)
        | _ :: rest2 => parse_args_go opts rest2 r.2 non_args
      else parse_args_go opts rest r.2 non_args
    | Except.ok none => parse_args_go opts rest st (non_args ++ [tok])

/-- `CommandLineParser::parse_args`: returns the unused tokens and the
updated settings. -/
def parse_args (opts : List CmdOption) (args : List String) (st : OptStore) :
    Except String (List String × OptStore) :=
  parse_args_go opts args st []

/-- `CommandLineParser::set_args` tokenizer loop over the characters of
the argument string, tracking the in-quotes state and the current
partial token. -/
def set_args_go : List Char → Bool → List Char → List String → List String
  | [], _, tmp, args => if tmp.length ≠ 0 then args ++ [String.mk tmp] else args
  | c :: cs, in_quotes, tmp, args =>
    if isCSpace c then
      if in_quotes then set_args_go cs in_quotes (tmp ++ [c]) args
      else if tmp.length ≠ 0 then set_args_go cs in_quotes [] (args ++ [String.mk tmp])
      else set_args_go cs in_quotes [] args
    else if c = '"' then
      if in_quotes then
        if tmp.length ≠ 0 then set_args_go cs false [] (args ++ [String.mk tmp])
        else set_args_go cs false [] args
      else set_args_go cs true tmp args
    else set_args_go cs in_quotes (tmp ++ [c]) args

/-- `CommandLineParser::set_args`: tokenize an argument string. -/
def set_args (arg_string : String) : List String :=
  set_args_go arg_string.data false [] []

/-- Modelled from the spec: the option registration performed by the
kernel settings (`add_options`) is outside src/.  Per the spec the
recognized options include block/region/pad sizes, thread counts and
halo-exchange toggles; `block_size` is a MultiIdxOption whose targets
are the block-size settings of every domain dimension (three domain
dimensions here).  Int-store layout: cells 0-2 block sizes, 3-5 region
sizes, 6 max_threads, 7 thread_divisor, 8 num_block_threads; bool cell
0 is enable_halo_exchange. -/
def yask_options : List CmdOption :=
  [ CmdOption.multiIdxOpt "block_size" [0, 1, 2]
  , CmdOption.multiIdxOpt "region_size" [3, 4, 5]
  , CmdOption.idxOpt "max_threads" 6
  , CmdOption.idxOpt "thread_divisor" 7
  , CmdOption.idxOpt "num_block_threads" 8
  , CmdOption.boolOpt "enable_halo_exchange" 0 ]

/-- A settings store for `yask_options` with all sizes zero. -/
def initial_settings : OptStore :=
  { ints := [0, 0, 0, 0, 0, 0, 0, 0, 0], bools := [true] }

/-- Modelled from the spec: `apply_command_line_options` itself is
declared in the source but its body is outside src/.  Per the spec it
tokenizes the string, parses the tokens against the registered options
(both operations are in src/ and embedded above), and returns the
unused tokens, joined back into a string. -/
def apply_command_line_options (arg_string : String) (st : OptStore) :
    Except String (String × OptStore) :=
  match parse_args yask_options (set_args arg_string) st with
  | Except.error e => Except.error e
  | Except.ok r => Except.ok (String.intercalate " " r.1, r.2)

/-! ## Thread counts (StencilContext::set_region_threads) -/

/-- The three settings read by the thread-count computations. -/
structure ThreadSettings where
  max_threads : Int
  thread_divisor : Int
  num_block_threads : Int

/-- `StencilContext::set_region_threads`: two-stage integer division
with a clamp to 1 after each stage (`omp_set_nested`/`omp_set_num_threads`
side effects are not modelled; C++ `/` on int truncates toward zero). -/
def set_region_threads (o : ThreadSettings) : Int :=
  let mt := o.max_threads
  if mt = 0 then 0
  else
    let nt := mt.tdiv o.thread_divisor
    let nt1 := max nt 1
    let nt2 := nt1.tdiv o.num_block_threads
    max nt2 1

/-! ## Bounding boxes (BoundingBox, update_bb) -/

/-- An n-D bounding box in domain dims, with its derived fields
(`bb_len`, `bb_size`, `bb_is_full`, `bb_valid` are calculated by
`update_bb`).  Index tuples are lists of signed indices, one per domain
dimension. -/
structure BoundingBox where
  bb_begin : List Int
  bb_end : List Int
  bb_num_points : Int
  bb_len : List Int
  bb_size : Int
  bb_is_full : Bool
  bb_valid : Bool
  deriving Repr, DecidableEq

/-- All points of the box `[bb_begin, bb_end)`, lexicographically:
the iteration space walked when counting valid points. -/
def boxPoints : List Int → List Int → List (List Int)
  | b :: bs, e :: es =>
    ((List.range (e - b).toNat).map (fun i => b + Int.ofNat i)).flatMap
      (fun x => (boxPoints bs es).map (fun p => x :: p))
  | _, _ => [[]]

/-- Modelled from the spec: `update_bb` is declared in the source but its
body is outside src/.  Per the spec it computes the derived fields:
`len = end - begin` per dim, `size = product(len)`; the number of valid
points is obtained by walking each point of the box and testing it
against the domain (`valid_pt`) unless `force_full` is set, in which
case `bb_num_points` is set to `bb_size`; `is_full` records
`size == num_points`, and the box is marked valid. -/
def update_bb (bb_begin bb_end : List Int) (valid_pt : List Int → Bool)
    (force_full : Bool) : BoundingBox :=
  let len := List.zipWith (fun e b => e - b) bb_end bb_begin
  let size := len.prod
  let npts : Int :=
    if force_full then size
    else (((boxPoints bb_begin bb_end).filter valid_pt).length : Int)
  { bb_begin := bb_begin, bb_end := bb_end, bb_num_points := npts,
    bb_len := len, bb_size := size,
    bb_is_full := decide (size = npts), bb_valid := true }

/-! ## Tolerance comparison (within_tolerance, realv.hpp) -/

/-- `within_tolerance(val, ref, epsilon)` from realv.hpp, over exact
rationals in place of IEEE doubles: the absolute difference must be
strictly below the tolerance, which is scaled to `fabs(ref * epsilon)`
when `fabs(ref) > 1` and used as given otherwise. -/
def within_tolerance (val ref epsilon : ℚ) : Bool :=
  let adiff := |val - ref|
  let eps := if |ref| > 1 then |ref * epsilon| else epsilon
  decide (adiff < eps)

/-! ## Aligned and NUMA allocation (alignedAlloc, numaAlloc) -/

/-- Cache-line size used as the default alignment (value defined outside
src/; 64 bytes on the targeted hardware). -/
def CACHELINE_BYTES : Nat := 64

/-- Huge-page alignment used for big allocations (value defined outside
src/; 2 MiB). -/
def YASK_HUGE_ALIGNMENT : Nat := 2 * 1024 * 1024

/-- Modelled from the spec: the numeric values of the NUMA-policy
constants are declared outside src/; only their distinctness and the
fact that they are negative (so they cannot collide with node ids)
matter here. -/
def yask_numa_local : Int := -1

/-- NUMA interleave policy selector. -/
def yask_numa_interleave : Int := -2

/-- NUMA policy selector meaning: no explicit binding. -/
def yask_numa_none : Int := -9

/-- The outcomes of the underlying OS allocation calls, supplied as an
oracle: each returns an address, with 0 standing for null (or
MAP_FAILED). -/
structure AllocEnv where
  posixMemalign : Nat → Nat → Nat
  mmapAnon : Nat → Nat
  mempolicyAvailable : Bool

/-- The mbind policies that numaAlloc can apply to an mmap region. -/
inductive MBind where
  | preferred (node : Nat)
  | interleave
  | localNode
  deriving Repr, DecidableEq

/-- `alignedAlloc`: pick huge-page alignment for sizes of at least the
huge-page threshold and cache-line alignment otherwise, allocate, and
throw instead of returning null. -/
def alignedAlloc (env : AllocEnv) (nbytes : Nat) : Except String Nat :=
  let align := if nbytes ≥ YASK_HUGE_ALIGNMENT then YASK_HUGE_ALIGNMENT else CACHELINE_BYTES
  let p := env.posixMemalign align nbytes
  if p = 0 then Except.error "error: cannot allocate" else Except.ok p

/-- `numaAlloc` (USE_NUMA configuration with get_mempolicy/mmap/mbind):
`yask_numa_none` short-circuits to `alignedAlloc` with no binding;
otherwise an anonymous mmap is bound according to the preference
(a node id when nonnegative, interleave, or the local node) and a null
result is turned into an error.  The returned list records the mbind
calls that were applied. -/
def numaAlloc (env : AllocEnv) (nbytes : Nat) (numa_pref : Int) :
    Except String (Nat × List MBind) :=
  if numa_pref = yask_numa_none then
    match alignedAlloc env nbytes with
    | Except.error e => Except.error e
    | Except.ok p => Except.ok (p, [])
  else if env.mempolicyAvailable then
    let p := env.mmapAnon nbytes
    if p ≠ 0 then
      let binds : List MBind :=
        if numa_pref ≥ 0 then [MBind.preferred numa_pref.toNat]
        else if numa_pref = yask_numa_interleave then [MBind.interleave]
        else [MBind.localNode]
      if p = 0 then Except.error "Error: cannot allocate"
      else Except.ok (p, binds)
    else Except.error "Error: anonymous mmap failed"
  else Except.error "Error: explicit NUMA policy allocation is not available"

/-! ## Stats and timers (Stats, clear_timers, get_stats) -/

/-- The Stats object returned by `get_stats`. -/
structure Stats where
  npts : Int
  nwrites : Int
  nfpops : Int
  nsteps : Int
  run_time : ℚ
  mpi_time : ℚ
  deriving Repr, DecidableEq

/-- Elapsed-seconds accumulator (`YaskTimer`), over exact rationals in
place of doubles. -/
structure YaskTimer where
  elapsed_secs : ℚ
  deriving Repr, DecidableEq

/-- `YaskTimer::clear`. -/
def YaskTimer.clear (_t : YaskTimer) : YaskTimer := { elapsed_secs := 0 }

/-- The part of the StencilContext state that the stats APIs read and
write. -/
structure StencilCtxState where
  tot_domain_1t : Int
  tot_numWrites_1t : Int
  tot_numFpOps_1t : Int
  steps_done : Int
  run_time : YaskTimer
  mpi_time : YaskTimer
  deriving Repr, DecidableEq

/-- `StencilContext::clear_timers`: reset elapsed times and the step
counter to zero. -/
def clear_timers (c : StencilCtxState) : StencilCtxState :=
  { c with run_time := c.run_time.clear, mpi_time := c.mpi_time.clear, steps_done := 0 }

/-- Modelled from the spec: the body of `get_stats` is outside src/; its
declaration documents that it returns the statistics for the preceding
calls to `run_solution` and resets all timers and step counters (the
reset itself is `clear_timers`, which is in src/).  The returned object
carries the step count and elapsed run seconds accumulated since the
previous reset. -/
def get_stats (c : StencilCtxState) : Stats × StencilCtxState :=
  ({ npts := c.tot_domain_1t, nwrites := c.tot_numWrites_1t,
     nfpops := c.tot_numFpOps_1t, nsteps := c.steps_done,
     run_time := c.run_time.elapsed_secs, mpi_time := c.mpi_time.elapsed_secs },
   clear_timers c)

/-! ## run_solution overloads -/

/-- The inclusive step range `[first_step_index, last_step_index]`. -/
def incRange (first last : Int) : List Int :=
  (List.range (last + 1 - first).toNat).map (fun i => first + (i : Int))

/-- Modelled from the spec: the body of the two-argument
`run_solution(first_step_index, last_step_index)` is outside src/; per
the spec it performs the step computation for every step index in the
inclusive range.  The per-step computation is abstracted as `stepFn`. -/
def run_solution_range {σ : Type} (stepFn : Int → σ → σ) (first last : Int) (st : σ) : σ :=
  (incRange first last).foldl (fun s t => stepFn t s) st

/-- The single-argument `run_solution(step_index)` overload from the
source: it delegates to the two-argument form with the step index as
both bounds. -/
def run_solution_single {σ : Type} (stepFn : Int → σ → σ) (step_index : Int) (st : σ) : σ :=
  run_solution_range stepFn step_index step_index st

/-! ## Vector alignment (realv_align, realv.hpp) -/

/-- One of the two element loops of the NO_INTRINSICS `realv_align`:
starting at index `i`, for `n` iterations, store `f` of the loop index
into the result vector. -/
def setLoop {α : Type} (f : Nat → α) : Nat → Nat → List α → List α
  | _, 0, r => r
  | i, n + 1, r => setLoop f (i + 1) n (r.set i (f i))

/-- `realv_align<count>(res, a, b)` (NO_INTRINSICS path), on vectors of
`vlen` rationals: temporary copies of `a` and `b` are taken first (so
that `res` may alias either), then `res[i] = b[i + count]` for
`i < VLEN - count` and `res[i] = a[i + count - VLEN]` for the remaining
`i < VLEN`.  `res0` is the contents of `res` before the call. -/
def realv_align (vlen count : Nat) (res0 a b : List ℚ) : List ℚ :=
  let tmpa := a
  let tmpb := b
  let r1 := setLoop (fun i => tmpb.getD (i + count) 0) 0 (vlen - count) res0
  setLoop (fun i => tmpa.getD (i + count - vlen) 0) (vlen - count) (vlen - (vlen - count)) r1

/-! ## Grid lookup (StencilContext::get_grid) -/

/-- `StencilContext::get_grid`: look the name up in `gridMap` and return
the stored grid pointer, or a null pointer (`none`) when the name is
not registered; the function has no failure outcome.  Grid pointers are
abstracted as handles. -/
def get_grid (gridMap : List (String × Nat)) (nm : String) : Option Nat :=
  match gridMap.find? (fun kv => kv.1 == nm) with
  | some kv => some kv.2
  | none => none

/-! ## Helper lemmas -/

/-- Two-stage truncating division with a clamp to 1 after each stage
equals the single clamp of the two-stage division. -/
theorem nat_two_stage_div_clamp (a b : Nat) : max (max a 1 / b) 1 = max (a / b) 1 := by
  rcases Nat.eq_zero_or_pos a with h | h
  · subst h
    have h1 : 1 / b ≤ 1 := Nat.div_le_self 1 b
    simp [Nat.max_eq_right h1]
  · rw [Nat.max_eq_left h]

/-- `alignedAlloc` never returns a null pointer. -/
theorem alignedAlloc_ok_ne_zero (env : AllocEnv) (nbytes : Nat) (p : Nat)
    (h : alignedAlloc env nbytes = Except.ok p) : p ≠ 0 := by
  simp only [alignedAlloc] at h
  split_ifs at h with h0 h1 h2 <;> cases h <;> assumption

/-! ## Claims -/

/-- Claim C2: for positive `max_threads`, `thread_divisor` and
`num_block_threads`, `set_region_threads` returns
`floor(max_threads / thread_divisor / num_block_threads)` clamped below
by 1: the two-stage integer division with clamping after each stage
equals this formula. -/
theorem claim_C2_set_region_threads (o : ThreadSettings)
    (hm : 0 < o.max_threads) (hd : 0 < o.thread_divisor) (hb : 0 < o.num_block_threads) :
    set_region_threads o =
      ((max (o.max_threads.toNat / o.thread_divisor.toNat / o.num_block_threads.toNat) 1 : Nat) : Int) := by
  have hM : ((o.max_threads.toNat : Nat) : Int) = o.max_threads := Int.toNat_of_nonneg hm.le
  have hD : ((o.thread_divisor.toNat : Nat) : Int) = o.thread_divisor := Int.toNat_of_nonneg hd.le
  have hB : ((o.num_block_threads.toNat : Nat) : Int) = o.num_block_threads := Int.toNat_of_nonneg hb.le
  have htdiv : ∀ m n : Nat, ((m : Int)).tdiv (n : Int) = ((m / n : Nat) : Int) := fun _ _ => rfl
  have hmax : ∀ m : Nat, max ((m : Nat) : Int) 1 = ((max m 1 : Nat) : Int) := by
    intro m
    rw [Nat.cast_max, Nat.cast_one]
  simp only [set_region_threads]
  rw [if_neg (by omega)]
  conv_lhs => rw [← hM, ← hD, ← hB]
  rw [htdiv, hmax, htdiv, hmax]
  rw [nat_two_stage_div_clamp]

/-- Witness for claim C2 at a concrete input. -/
theorem claim_C2_witness : set_region_threads ⟨16, 2, 3⟩ = ((max (16 / 2 / 3) 1 : Nat) : Int) :=
  claim_C2_set_region_threads ⟨16, 2, 3⟩ (by decide) (by decide) (by decide)

/-- Claim C4, counterexample: at `val = 1`, `ref = 2`, `epsilon = -1` the
code returns true although `|val - ref| < epsilon * max(|ref|, 1)` is
false, so the claimed equivalence does not hold for negative tolerances
(the code takes the absolute value when scaling by `|ref|`). -/
theorem claim_C4_counterexample :
    within_tolerance 1 2 (-1) = true ∧ ¬(|(1 : ℚ) - 2| < (-1) * max |(2 : ℚ)| 1) := by
  constructor
  · simp only [within_tolerance]
    rw [if_pos (by norm_num)]
    norm_num
  · norm_num

/-- Claim C4, amended: for nonnegative `epsilon`, `within_tolerance`
returns true iff `|val - ref| < epsilon * max(|ref|, 1)`; the comparison
is strict, and the tolerance is scaled by `|ref|` exactly when
`|ref| > 1` and used unscaled otherwise. -/
theorem claim_C4_within_tolerance (val ref epsilon : ℚ) (h : 0 ≤ epsilon) :
    within_tolerance val ref epsilon = true ↔ |val - ref| < epsilon * max |ref| 1 := by
  simp only [within_tolerance, decide_eq_true_eq]
  by_cases hr : |ref| > 1
  · rw [if_pos hr, abs_mul, abs_of_nonneg h, max_eq_left hr.le, mul_comm]
  · rw [if_neg hr, max_eq_right (le_of_not_lt hr), mul_one]

/-- Witness for the amended claim C4 at a concrete input. -/
theorem claim_C4_witness :
    within_tolerance (3 / 2) 2 1 = true ↔ |(3 / 2 : ℚ) - 2| < 1 * max |(2 : ℚ)| 1 :=
  claim_C4_within_tolerance (3 / 2) 2 1 (by norm_num)

/-- Claim C5: neither allocator ever returns a null pointer (a failed
underlying allocation becomes an error), and `numaAlloc` with
`yask_numa_none` performs exactly the `alignedAlloc` allocation with no
NUMA binding applied. -/
theorem claim_C5_alloc (env : AllocEnv) (nbytes : Nat) (numa_pref : Int)
    (p : Nat) (bs : List MBind) :
    (alignedAlloc env nbytes = Except.ok p → p ≠ 0)
    ∧ (numaAlloc env nbytes numa_pref = Except.ok (p, bs) → p ≠ 0)
    ∧ numaAlloc env nbytes yask_numa_none
        = (alignedAlloc env nbytes).map (fun q => (q, ([] : List MBind))) := by
  refine ⟨alignedAlloc_ok_ne_zero env nbytes p, ?_, ?_⟩
  · intro h
    simp only [numaAlloc] at h
    split at h
    · cases ha : alignedAlloc env nbytes with
      | error e => rw [ha] at h; cases h
      | ok q =>
        rw [ha] at h
        cases h
        exact alignedAlloc_ok_ne_zero env nbytes p ha
    · split at h
      · by_cases hp0 : env.mmapAnon nbytes ≠ 0
        · rw [if_pos hp0, if_neg hp0] at h
          injection h with h1
          injection h1 with h2 h3
          rw [← h2]
          exact hp0
        · rw [if_neg hp0] at h
          cases h
      · cases h
  · simp only [numaAlloc, if_pos rfl]
    cases ha : alignedAlloc env nbytes <;> simp [Except.map]

/-- Witness for claim C5 at a concrete allocation oracle. -/
theorem claim_C5_witness :
    alignedAlloc ⟨fun _ _ => 7, fun _ => 9, true⟩ 16 = Except.ok 7 ∧ (7 : Nat) ≠ 0 :=
  ⟨rfl, (claim_C5_alloc ⟨fun _ _ => 7, fun _ => 9, true⟩ 16 0 7 []).1 rfl⟩

/-- Claim C6: `get_stats` reports the steps done and elapsed run seconds
accumulated since the previous reset and resets the step counter and
timers, so an immediately following `get_stats` reports zero steps and
zero elapsed run seconds. -/
theorem claim_C6_get_stats (c : StencilCtxState) :
    (get_stats c).1.nsteps = c.steps_done
    ∧ (get_stats c).1.run_time = c.run_time.elapsed_secs
    ∧ (get_stats (get_stats c).2).1.nsteps = 0
    ∧ (get_stats (get_stats c).2).1.run_time = 0 :=
  ⟨rfl, rfl, rfl, rfl⟩

/-- Claim C7: the single-argument `run_solution(step)` performs exactly
the computation of the inclusive-range form `run_solution(step, step)`,
which is the step computation at that single step index. -/
theorem claim_C7_run_solution {σ : Type} (stepFn : Int → σ → σ) (s : Int) (st : σ) :
    run_solution_single stepFn s st = run_solution_range stepFn s s st
    ∧ run_solution_single stepFn s st = stepFn s st := by
  refine ⟨rfl, ?_⟩
  have h1 : s + 1 - s = (1 : Int) := by ring
  have h2 : incRange s s = [s] := by
    rw [incRange, h1]
    rw [show List.range (Int.toNat 1) = [0] from rfl]
    simp
  rw [run_solution_single, run_solution_range, h2]
  rfl

/-- Claim C10: `get_grid` has no failure outcome: an unregistered name
yields a null pointer (`none`), and a registered name yields the grid
stored under it in the grid map. -/
theorem claim_C10_get_grid (m : List (String × Nat)) (nm : String) :
    ((∀ g, (nm, g) ∉ m) → get_grid m nm = none)
    ∧ (∀ g, (m.map Prod.fst).Nodup → (nm, g) ∈ m → get_grid m nm = some g) := by
  induction m with
  | nil => exact ⟨fun _ => rfl, fun g _ hg => absurd hg (List.not_mem_nil _)⟩
  | cons hd tl ih =>
    constructor
    · intro hno
      cases hp : (hd.1 == nm) with
      | true =>
        exact absurd (by
          have : hd = (nm, hd.2) := by
            have := eq_of_beq hp
            cases hd
            simp_all
          rw [← this]
          exact List.mem_cons_self hd tl) (hno hd.2)
      | false =>
        have : get_grid (hd :: tl) nm = get_grid tl nm := by
          simp only [get_grid, List.find?_cons, hp]
        rw [this]
        exact (ih).1 (fun g hg => hno g (List.mem_cons_of_mem hd hg))
    · intro g hnodup hmem
      cases hp : (hd.1 == nm) with
      | true =>
        have h1 : hd.1 = nm := eq_of_beq hp
        have hres : get_grid (hd :: tl) nm = some hd.2 := by
          simp only [get_grid, List.find?_cons, hp]
        rw [hres]
        rcases List.mem_cons.mp hmem with heq | htl
        · rw [← heq]
        · exfalso
          have : nm ∈ tl.map Prod.fst := List.mem_map_of_mem Prod.fst htl
          rw [List.map_cons, List.nodup_cons] at hnodup
          exact hnodup.1 (h1 ▸ this)
      | false =>
        have hres : get_grid (hd :: tl) nm = get_grid tl nm := by
          simp only [get_grid, List.find?_cons, hp]
        rw [hres]
        rcases List.mem_cons.mp hmem with heq | htl
        · exfalso
          have : hd.1 = nm := by rw [← heq]
          simp [this] at hp
        · exact ih.2 g (List.Nodup.of_cons (by rwa [List.map_cons] at hnodup)) htl

/-- Witness for claim C10 at a concrete grid map. -/
theorem claim_C10_witness :
    get_grid [("A", 1), ("B", 2)] "C" = none ∧ get_grid [("A", 1), ("B", 2)] "B" = some 2 :=
  ⟨(claim_C10_get_grid [("A", 1), ("B", 2)] "C").1 (by intro g hg; simp at hg),
   (claim_C10_get_grid [("A", 1), ("B", 2)] "B").2 2 (by decide) (by decide)⟩

/-- `List.getD` after a `set` at the same, in-range index. -/
theorem getD_set_self {α : Type} (l : List α) (i : Nat) (v d : α) (h : i < l.length) :
    (l.set i v).getD i d = v := by
  simp [List.getD_eq_getElem?_getD, List.getElem?_set_self h]

/-- `List.getD` after a `set` at a different index. -/
theorem getD_set_other {α : Type} (l : List α) (i j : Nat) (v d : α) (h : i ≠ j) :
    (l.set i v).getD j d = l.getD j d := by
  simp [List.getD_eq_getElem?_getD, List.getElem?_set_ne h]

/-- `setLoop` preserves the vector length. -/
theorem setLoop_length {α : Type} (f : Nat → α) (n : Nat) :
    ∀ (i : Nat) (r : List α), (setLoop f i n r).length = r.length := by
  induction n with
  | zero => intro i r; rfl
  | succ n ih =>
    intro i r
    rw [setLoop, ih, List.length_set]

/-- Pointwise description of `setLoop`: indices in the loop range (and in
range of the vector) hold the stored values, all others are unchanged. -/
theorem setLoop_getD {α : Type} (f : Nat → α) (d : α) (n : Nat) :
    ∀ (i : Nat) (r : List α) (j : Nat),
      (setLoop f i n r).getD j d =
        if i ≤ j ∧ j < i + n ∧ j < r.length then f j else r.getD j d := by
  induction n with
  | zero =>
    intro i r j
    rw [setLoop, if_neg (by omega)]
  | succ n ih =>
    intro i r j
    rw [setLoop, ih]
    simp only [List.length_set]
    by_cases hj : j = i
    · subst hj
      by_cases hlen : j < r.length
      · rw [if_neg (by omega), if_pos ⟨le_refl j, by omega, hlen⟩]
        exact getD_set_self r j (f j) d hlen
      · rw [if_neg (by omega), if_neg (by omega)]
        rw [List.set_eq_of_length_le (by omega)]
    · have hne : i ≠ j := fun hh => hj hh.symm
      rw [getD_set_other r i j (f i) d hne]
      by_cases hc : i + 1 ≤ j ∧ j < i + 1 + n ∧ j < r.length
      · rw [if_pos hc, if_pos ⟨by omega, by omega, hc.2.2⟩]
      · have hc2 : ¬(i ≤ j ∧ j < i + (n + 1) ∧ j < r.length) := by
          intro hx
          exact hc ⟨by omega, by omega, hx.2.2⟩
        rw [if_neg hc, if_neg hc2]

/-- Pointwise description of `realv_align`: the first `vlen - count`
result elements come from `b` shifted by `count`, the last `count` from
the start of `a`, and (for a too-short result vector) anything else is
unchanged. -/
theorem realv_align_getD (vlen count : Nat) (res0 a b : List ℚ)
    (hc : count ≤ vlen) (hr : res0.length = vlen) (j : Nat) :
    (realv_align vlen count res0 a b).getD j 0 =
      if vlen - count ≤ j ∧ j < vlen then a.getD (j + count - vlen) 0
      else if j < vlen - count then b.getD (j + count) 0
      else res0.getD j 0 := by
  simp only [realv_align]
  rw [setLoop_getD, setLoop_getD, setLoop_length, hr]
  split_ifs <;> first | rfl | omega

/-- Length of the `realv_align` result. -/
theorem realv_align_length (vlen count : Nat) (res0 a b : List ℚ) :
    (realv_align vlen count res0 a b).length = res0.length := by
  simp only [realv_align]
  rw [setLoop_length, setLoop_length]

/-- Claim C9: for `0 ≤ count ≤ VLEN`, `realv_align` produces
`res[i] = b[i + count]` for `i < VLEN - count` and
`res[i] = a[i + count - VLEN]` for the remaining `i < VLEN`; hence
`count = 0` yields `b` and `count = VLEN` yields `a`, and because the
loops read from temporary copies the result is independent of the
initial contents of `res` (so `res` may alias `a` or `b`). -/
theorem claim_C9_realv_align (vlen count : Nat) (res0 a b : List ℚ)
    (hc : count ≤ vlen) (hr : res0.length = vlen) (ha : a.length = vlen) (hb : b.length = vlen) :
    (∀ i, i < vlen - count →
        (realv_align vlen count res0 a b).getD i 0 = b.getD (i + count) 0)
    ∧ (∀ i, vlen - count ≤ i → i < vlen →
        (realv_align vlen count res0 a b).getD i 0 = a.getD (i + count - vlen) 0)
    ∧ (count = 0 → realv_align vlen count res0 a b = b)
    ∧ (count = vlen → realv_align vlen count res0 a b = a) := by
  have hlen : (realv_align vlen count res0 a b).length = vlen := by
    rw [realv_align_length, hr]
  refine ⟨?_, ?_, ?_, ?_⟩
  · intro i hi
    rw [realv_align_getD vlen count res0 a b hc hr i, if_neg (by omega), if_pos hi]
  · intro i h1 h2
    rw [realv_align_getD vlen count res0 a b hc hr i, if_pos ⟨h1, h2⟩]
  · intro h0
    subst h0
    apply List.ext_getElem (by rw [hlen, hb])
    intro i hi1 hi2
    rw [← List.getD_eq_getElem _ (0 : ℚ) hi1, ← List.getD_eq_getElem _ (0 : ℚ) hi2]
    rw [realv_align_getD vlen 0 res0 a b hc hr i]
    rw [if_neg (by rw [hlen] at hi1; omega), if_pos (by rw [hlen] at hi1; omega)]
    rw [Nat.add_zero]
  · intro h0
    subst h0
    apply List.ext_getElem (by rw [hlen, ha])
    intro i hi1 hi2
    rw [← List.getD_eq_getElem _ (0 : ℚ) hi1, ← List.getD_eq_getElem _ (0 : ℚ) hi2]
    rw [realv_align_getD count count res0 a b hc hr i]
    rw [if_pos (by rw [hlen] at hi1; omega)]
    congr 1
    omega

/-- Witness for claim C9: a concrete shift by one, with the result
vector aliased to `b`. -/
theorem claim_C9_witness :
    (realv_align 4 1 [5, 6, 7, 8] [1, 2, 3, 4] [5, 6, 7, 8]).getD 0 0
      = ([5, 6, 7, 8] : List ℚ).getD (0 + 1) 0 :=
  (claim_C9_realv_align 4 1 [5, 6, 7, 8] [1, 2, 3, 4] [5, 6, 7, 8]
    (by omega) rfl rfl rfl).1 0 (by omega)

/-- Length of prepending each element of `l` to each list in `M`. -/
theorem flatMap_cons_length (l : List Int) (M : List (List Int)) :
    (l.flatMap (fun x => M.map (fun p => x :: p))).length = l.length * M.length := by
  induction l with
  | nil => simp
  | cons a l ih =>
    rw [List.flatMap_cons, List.length_append, List.length_map, ih, List.length_cons]
    ring

/-- The product of the nonnegative per-dim extents of a box, as a
natural number. -/
def natExtentsProd (B E : List Int) : Nat :=
  (List.zipWith (fun b e => (e - b).toNat) B E).prod

/-- The number of points walked in a box is the product of the per-dim
extents. -/
theorem boxPoints_length : ∀ (B E : List Int),
    (boxPoints B E).length = natExtentsProd B E := by
  intro B
  induction B with
  | nil => intro E; cases E <;> rfl
  | cons b bs ih =>
    intro E
    cases E with
    | nil => rfl
    | cons e es =>
      rw [boxPoints, flatMap_cons_length, List.length_map, List.length_range, ih es]
      simp [natExtentsProd]

/-- With ordered bounds, the product of the signed per-dim lengths is
the cast product of their `toNat`s. -/
theorem zipWith_sub_prod (B E : List Int) (h : List.Forall₂ (fun b e => b ≤ e) B E) :
    (List.zipWith (fun e b => e - b) E B).prod = ((natExtentsProd B E : Nat) : Int) := by
  induction h with
  | nil => rfl
  | @cons b e bs es hbe _ ih =>
    have hstep : natExtentsProd (b :: bs) (e :: es) = (e - b).toNat * natExtentsProd bs es := by
      simp [natExtentsProd]
    rw [List.zipWith_cons_cons, List.prod_cons, hstep, Nat.cast_mul, ← ih,
      Int.toNat_of_nonneg (by omega)]

/-- Claim C3: after `update_bb` on a box with ordered bounds, the derived
fields satisfy `bb_len = bb_end - bb_begin` per dimension,
`bb_size = product(bb_len)`, `bb_num_points ≤ bb_size`,
`bb_is_full` holds iff `bb_num_points = bb_size`, and `bb_valid` is
true. -/
theorem claim_C3_update_bb (B E : List Int) (valid_pt : List Int → Bool) (force_full : Bool)
    (h : List.Forall₂ (fun b e => b ≤ e) B E) :
    (update_bb B E valid_pt force_full).bb_len = List.zipWith (fun e b => e - b) E B
    ∧ (update_bb B E valid_pt force_full).bb_size
        = (update_bb B E valid_pt force_full).bb_len.prod
    ∧ (update_bb B E valid_pt force_full).bb_num_points
        ≤ (update_bb B E valid_pt force_full).bb_size
    ∧ ((update_bb B E valid_pt force_full).bb_is_full = true
        ↔ (update_bb B E valid_pt force_full).bb_num_points
            = (update_bb B E valid_pt force_full).bb_size)
    ∧ (update_bb B E valid_pt force_full).bb_valid = true := by
  refine ⟨rfl, rfl, ?_, ?_, rfl⟩
  · simp only [update_bb]
    split_ifs with hff
    · exact le_refl _
    · rw [zipWith_sub_prod B E h, ← boxPoints_length B E]
      exact_mod_cast List.length_filter_le valid_pt (boxPoints B E)
  · simp only [update_bb, decide_eq_true_eq]
    exact eq_comm

/-- Witness for claim C3 on a concrete 2-D box with a nontrivial domain
predicate. -/
theorem claim_C3_witness :
    (update_bb [0, 0] [2, 3] (fun p => p.headD 0 == 0) false).bb_num_points
      ≤ (update_bb [0, 0] [2, 3] (fun p => p.headD 0 == 0) false).bb_size :=
  (claim_C3_update_bb [0, 0] [2, 3] (fun p => p.headD 0 == 0) false
    (by norm_num [List.forall₂_cons])).2.2.1

/-- An option whose `check_arg` declined (returned none) does not match
the token. -/
theorem check_arg_ok_none (o : CmdOption) (tok : String) (rest : List String) (st : OptStore)
    (h : check_arg o tok rest st = Except.ok none) : o.matchesTok tok = false := by
  cases o with
  | boolOpt n tgt =>
    simp only [check_arg] at h
    split_ifs at h with h1 h2
    · simp at h
    · simp at h
    · simp [CmdOption.matchesTok, h1, h2]
  | intOpt n tgt =>
    simp only [check_arg] at h
    split_ifs at h with h1
    · cases hiv : idx_val rest <;> rw [hiv] at h <;> simp at h
    · simp [CmdOption.matchesTok, h1]
  | idxOpt n tgt =>
    simp only [check_arg] at h
    split_ifs at h with h1
    · cases hiv : idx_val rest <;> rw [hiv] at h <;> simp at h
    · simp [CmdOption.matchesTok, h1]
  | multiIdxOpt n tgts =>
    simp only [check_arg] at h
    split_ifs at h with h1
    · cases hiv : idx_val rest <;> rw [hiv] at h <;> simp at h
    · simp [CmdOption.matchesTok, h1]

/-- An option that does not match the token declines it. -/
theorem check_arg_of_not_matches (o : CmdOption) (tok : String) (rest : List String)
    (st : OptStore) (h : o.matchesTok tok = false) :
    check_arg o tok rest st = Except.ok none := by
  cases o with
  | boolOpt n tgt =>
    simp only [CmdOption.matchesTok, Bool.or_eq_false_iff, decide_eq_false_iff_not] at h
    simp [check_arg, h.1, h.2]
  | intOpt n tgt =>
    simp only [CmdOption.matchesTok, decide_eq_false_iff_not] at h
    simp [check_arg, h]
  | idxOpt n tgt =>
    simp only [CmdOption.matchesTok, decide_eq_false_iff_not] at h
    simp [check_arg, h]
  | multiIdxOpt n tgts =>
    simp only [CmdOption.matchesTok, decide_eq_false_iff_not] at h
    simp [check_arg, h]

/-- When the whole option list declines a token, no registered option
matches it. -/
theorem findMatch_ok_none (opts : List CmdOption) (tok : String) (rest : List String)
    (st : OptStore) (h : findMatch opts tok rest st = Except.ok none) :
    ∀ o ∈ opts, o.matchesTok tok = false := by
  induction opts with
  | nil => intro o ho; cases ho
  | cons q os ih =>
    intro o ho
    rw [findMatch] at h
    rcases List.mem_cons.mp ho with heq | hmem
    · subst heq
      cases hca : check_arg o tok rest st with
      | error e => rw [hca] at h; cases h
      | ok r =>
        cases r with
        | none => exact check_arg_ok_none o tok rest st hca
        | some r2 => rw [hca] at h; cases h
    · cases hca : check_arg q tok rest st with
      | error e => rw [hca] at h; cases h
      | ok r =>
        cases r with
        | none =>
          rw [hca] at h
          exact ih h o hmem
        | some r2 => rw [hca] at h; cases h

/-- Main loop invariant of `parse_args`: on success the unused tokens
are the accumulator followed by a subsequence of the remaining tokens,
none of which matches any registered option. -/
theorem parse_args_go_ok (opts : List CmdOption) :
    ∀ (n : Nat) (toks : List String), toks.length ≤ n →
      ∀ (st : OptStore) (non_args unused : List String) (st2 : OptStore),
        parse_args_go opts toks st non_args = Except.ok (unused, st2) →
        ∃ u, unused = non_args ++ u ∧ List.Sublist u toks
          ∧ ∀ t ∈ u, ∀ o ∈ opts, o.matchesTok t = false := by
  intro n
  induction n with
  | zero =>
    intro toks hlen st non_args unused st2 h
    have : toks = [] := List.eq_nil_of_length_eq_zero (Nat.le_zero.mp hlen)
    subst this
    rw [parse_args_go] at h
    injection h with h1
    injection h1 with h2 h3
    exact ⟨[], by rw [← h2, List.append_nil], List.nil_sublist [], by intro t ht; cases ht⟩
  | succ n ih =>
    intro toks hlen st non_args unused st2 h
    cases toks with
    | nil =>
      rw [parse_args_go] at h
      injection h with h1
      injection h1 with h2 h3
      exact ⟨[], by rw [← h2, List.append_nil], List.nil_sublist [], by intro t ht; cases ht⟩
    | cons tok rest =>
      rw [parse_args_go] at h
      cases hfm : findMatch opts tok rest st with
      | error e => rw [hfm] at h; cases h
      | ok mr =>
        cases mr with
        | some r =>
          rw [hfm] at h
          simp only at h
          by_cases hr1 : r.1 = true
          · rw [if_pos hr1] at h
            cases rest with
            | nil =>
              injection h with h1
              injection h1 with h2 h3
              exact ⟨[], by rw [← h2, List.append_nil], List.nil_sublist _,
                by intro t ht; cases ht⟩
            | cons v rest2 =>
              obtain ⟨u, hu, hsub, hnm⟩ :=
                ih rest2 (by simp at hlen; omega) r.2 non_args unused st2 h
              exact ⟨u, hu, (hsub.cons v).cons tok, hnm⟩
          · rw [if_neg hr1] at h
            obtain ⟨u, hu, hsub, hnm⟩ :=
              ih rest (by simp at hlen; omega) r.2 non_args unused st2 h
            exact ⟨u, hu, hsub.cons tok, hnm⟩
        | none =>
          rw [hfm] at h
          simp only at h
          obtain ⟨u, hu, hsub, hnm⟩ :=
            ih rest (by simp at hlen; omega) st (non_args ++ [tok]) unused st2 h
          refine ⟨tok :: u, by rw [hu, List.append_assoc, List.singleton_append],
            hsub.cons₂ tok, ?_⟩
          intro t ht
          rcases List.mem_cons.mp ht with heq | hmem
          · subst heq
            exact findMatch_ok_none opts t rest st hfm
          · exact hnm t hmem

/-- Folding a MultiIdxOption write over targets keeps the store length. -/
theorem foldl_setInt_length (tgts : List Nat) (v : Int) :
    ∀ (st : OptStore), (tgts.foldl (fun s q => setIntCell s q v) st).ints.length
      = st.ints.length := by
  induction tgts with
  | nil => intro st; rfl
  | cons q rest ih =>
    intro st
    rw [List.foldl_cons, ih]
    simp [setIntCell]

/-- A cell already holding the written value still holds it after the
MultiIdxOption fold. -/
theorem foldl_setInt_getD_preserved (tgts : List Nat) (v : Int) (t : Nat) :
    ∀ (st : OptStore), st.ints.getD t 0 = v →
      (tgts.foldl (fun s q => setIntCell s q v) st).ints.getD t 0 = v := by
  induction tgts with
  | nil => intro st h; exact h
  | cons q rest ih =>
    intro st h
    rw [List.foldl_cons]
    apply ih
    by_cases hq : q = t
    · subst hq
      by_cases hlt : q < st.ints.length
      · simpa [setIntCell] using getD_set_self st.ints q v 0 hlt
      · simp only [setIntCell]
        rw [List.set_eq_of_length_le (by omega)]
        exact h
    · simpa [setIntCell] using (getD_set_other st.ints q t v 0 hq).trans h

/-- MultiIdxOption writes the same value to every (in-range) target. -/
theorem foldl_setInt_getD_mem (tgts : List Nat) (v : Int) (t : Nat) :
    ∀ (st : OptStore), t ∈ tgts → t < st.ints.length →
      (tgts.foldl (fun s q => setIntCell s q v) st).ints.getD t 0 = v := by
  induction tgts with
  | nil => intro st ht; cases ht
  | cons q rest ih =>
    intro st ht hlen
    rw [List.foldl_cons]
    rcases List.mem_cons.mp ht with heq | hmem
    · subst heq
      apply foldl_setInt_getD_preserved
      simpa [setIntCell] using getD_set_self st.ints t v 0 hlen
    · exact ih (setIntCell st q v) hmem (by simpa [setIntCell] using hlen)

/-- Whether a value token would be accepted by `idx_val` (nonempty and
fully parseable as an in-range integer). -/
def intArgAccepted (v : String) : Bool :=
  match idx_val [v] with
  | Except.ok _ => true
  | Except.error _ => false

/-- `idx_val` fails when the value token is missing or rejected. -/
theorem idx_val_error_of_bad (rest : List String)
    (hbad : ∀ v, rest.head? = some v → intArgAccepted v = false) :
    ∃ e, idx_val rest = Except.error e := by
  cases rest with
  | nil => exact ⟨_, rfl⟩
  | cons v vs =>
    have hb := hbad v rfl
    have heq : idx_val (v :: vs) = idx_val [v] := rfl
    rw [heq]
    cases hi : idx_val [v] with
    | error e => exact ⟨e, rfl⟩
    | ok w =>
      rw [intArgAccepted, hi] at hb
      cases hb

/-- When the first registered option matching the token is
integer-valued and the value conversion fails, the option scan
propagates the error. -/
theorem findMatch_error_of_first_match (opts : List CmdOption) (o : CmdOption) (tok : String)
    (rest : List String) (st : OptStore) (e : String)
    (hfind : opts.find? (fun q => q.matchesTok tok) = some o)
    (hint : o.isIntValued = true)
    (hiv : idx_val rest = Except.error e) :
    findMatch opts tok rest st = Except.error e := by
  induction opts with
  | nil => cases hfind
  | cons q os ih =>
    cases hm : q.matchesTok tok with
    | true =>
      rw [List.find?_cons_of_pos os
        (show (fun q : CmdOption => q.matchesTok tok) q = true from hm)] at hfind
      injection hfind with hq
      subst hq
      rw [findMatch]
      cases q with
      | boolOpt n tgt => rw [CmdOption.isIntValued] at hint; cases hint
      | intOpt n tgt =>
        have htok : tok = "-" ++ n := by
          simpa [CmdOption.matchesTok] using hm
        rw [check_arg, if_pos htok, hiv]
      | idxOpt n tgt =>
        have htok : tok = "-" ++ n := by
          simpa [CmdOption.matchesTok] using hm
        rw [check_arg, if_pos htok, hiv]
      | multiIdxOpt n tgts =>
        have htok : tok = "-" ++ n := by
          simpa [CmdOption.matchesTok] using hm
        rw [check_arg, if_pos htok, hiv]
    | false =>
      rw [List.find?_cons_of_neg os
        (show ¬((fun q : CmdOption => q.matchesTok tok) q = true) from by simp [hm])] at hfind
      rw [findMatch, check_arg_of_not_matches q tok rest st hm]
      exact ih hfind

/-- Claim C1: on success `parse_args` returns exactly the tokens matched
by no registered option, unmodified and in their original relative
order (a subsequence of the input); a matched MultiIdxOption writes the
single parsed value to all of its targets; and on the concrete S6
scenario, `apply_command_line_options` with
`-block_size 32 -foo bar` sets the block size to 32 in every domain
dimension and returns the unused tokens as `-foo bar`. -/
theorem claim_C1_apply_command_line_options :
    (∀ (opts : List CmdOption) (toks : List String) (st : OptStore)
        (unused : List String) (st2 : OptStore),
        parse_args opts toks st = Except.ok (unused, st2) →
        List.Sublist unused toks ∧ ∀ t ∈ unused, ∀ o ∈ opts, o.matchesTok t = false)
    ∧ (∀ (n : String) (tgts : List Nat) (tok : String) (rest : List String)
        (st : OptStore) (b : Bool) (st2 : OptStore),
        check_arg (CmdOption.multiIdxOpt n tgts) tok rest st = Except.ok (some (b, st2)) →
        ∃ v, idx_val rest = Except.ok v
          ∧ ∀ t ∈ tgts, t < st.ints.length → st2.ints.getD t 0 = v)
    ∧ apply_command_line_options "-block_size 32 -foo bar" initial_settings
        = Except.ok ("-foo bar",
            { ints := [32, 32, 32, 0, 0, 0, 0, 0, 0], bools := [true] }) := by
  refine ⟨?_, ?_, ?_⟩
  · intro opts toks st unused st2 hp
    obtain ⟨u, hu, hsub, hnm⟩ :=
      parse_args_go_ok opts toks.length toks (le_refl _) st [] unused st2 hp
    rw [List.nil_append] at hu
    subst hu
    exact ⟨hsub, hnm⟩
  · intro n tgts tok rest st b st2 h
    simp only [check_arg] at h
    split_ifs at h with h1
    · cases hiv : idx_val rest with
      | error e => rw [hiv] at h; cases h
      | ok v =>
        rw [hiv] at h
        simp only at h
        injection h with h2
        injection h2 with h3
        injection h3 with h4 h5
        refine ⟨v, rfl, ?_⟩
        intro t ht hlen
        rw [← h5]
        exact foldl_setInt_getD_mem tgts v t st ht hlen
    · cases h
  · rfl

/-- Witness for claim C1: the generic part applied to the concrete S6
token list. -/
theorem claim_C1_witness :
    List.Sublist ["-foo", "bar"] ["-block_size", "32", "-foo", "bar"]
    ∧ ∀ o ∈ yask_options, o.matchesTok "-foo" = false := by
  have h := claim_C1_apply_command_line_options.1 yask_options
    ["-block_size", "32", "-foo", "bar"] initial_settings ["-foo", "bar"]
    { ints := [32, 32, 32, 0, 0, 0, 0, 0, 0], bools := [true] } rfl
  exact ⟨h.1, fun o ho => h.2 "-foo" (by simp) o ho⟩

/-- Claim C8: when a token names an integer-valued registered option
(and no earlier-registered option claims that token) but its value
token is missing, empty, or not parseable as an integer, `parse_args`
fails with an error instead of returning normally, so no value is
installed. -/
theorem claim_C8_missing_int_value (opts : List CmdOption) (o : CmdOption) (tok : String)
    (rest : List String) (st : OptStore)
    (hfind : opts.find? (fun q => q.matchesTok tok) = some o)
    (hint : o.isIntValued = true)
    (hbad : ∀ v, rest.head? = some v → intArgAccepted v = false) :
    ∃ e, parse_args opts (tok :: rest) st = Except.error e := by
  obtain ⟨e, he⟩ := idx_val_error_of_bad rest hbad
  refine ⟨e, ?_⟩
  rw [parse_args, parse_args_go,
    findMatch_error_of_first_match opts o tok rest st e hfind hint he]

/-- Witness for claim C8: `-block_size` with its value token missing. -/
theorem claim_C8_witness :
    ∃ e, parse_args [CmdOption.idxOpt "block_size" 0] ["-block_size"]
        { ints := [0], bools := [] } = Except.error e :=
  claim_C8_missing_int_value [CmdOption.idxOpt "block_size" 0]
    (CmdOption.idxOpt "block_size" 0) "-block_size" [] { ints := [0], bools := [] }
    (by rfl) rfl (fun v hv => nomatch hv)
